import Mathlib

/-!
Verification of the memory subsystem of mod2lib: the arena-based node
allocator (`node_allocator.rs`), the bucket-based storage allocator
(`storage_allocator.rs`), the relocatable `GCVector` (`gc_vector.rs`),
the node header and constructor (`dag_node_core.rs`), the mark traversal
(`dag_node.rs`) and the root registry (`root_container.rs`).

The Rust code is shallowly embedded: raw pointers to buckets, nodes and
vectors become indices into explicit lists; machine integers become `Nat`
and `Int`; code paths that assert or abort become `Option` results with
`none` for the fatal case.  Mutable allocator state is threaded
explicitly through `StorageAllocator`, `Slot` lists and `Heap` values.
-/

/- ────────────────────────────────────────────────────────────────────
   Storage allocator (src/core/allocator/storage_allocator.rs and
   bucket.rs).

   A `Bucket` owns `size` bytes of which `free` are still available;
   the `id` field stands for the bucket's address, so that a bucket can
   be tracked across list moves.  Buckets are kept on two singly linked
   lists, modelled as Lean lists in the same order as the Rust links
   (head of the list = head of the linked list).
   ──────────────────────────────────────────────────────────────────── -/

def BUCKET_MULTIPLIER : Nat := 8

def MIN_BUCKET_SIZE : Nat := 256 * 1024 - 8

def INITIAL_TARGET : Nat := 220 * 1024

def TARGET_MULTIPLIER : Nat := 8

structure Bucket where
  id : Nat
  size : Nat
  free : Nat
deriving DecidableEq

/-- `Bucket::allocate`: bump-allocates `bytes` from the bucket.  The Rust
code also realigns `next_free` to 8 bytes, but `allocate_storage`
asserts that `bytes` is a multiple of the word size and `next_free`
starts aligned, so the alignment offset is always zero. -/
def Bucket.allocate (b : Bucket) (bytes : Nat) : Bucket :=
  { b with free := b.free - bytes }

/-- `Bucket::reset`: the bucket forgets its contents. -/
def Bucket.reset (b : Bucket) : Bucket :=
  { b with free := b.size }

structure StorageAllocator where
  need_to_collect_garbage : Bool
  bucket_count : Nat
  bucket_list : List Bucket
  unused_list : List Bucket
  storage_in_use : Nat
  total_bytes_allocated : Nat
  old_storage_in_use : Nat
  target : Nat
  /-- Source of fresh bucket identities (models the addresses returned
  by the system allocator: every new bucket is distinct). -/
  next_bucket_id : Nat
deriving DecidableEq

/-- `StorageAllocator::new`. -/
def StorageAllocator.new : StorageAllocator :=
  { need_to_collect_garbage := false
    bucket_count := 0
    bucket_list := []
    unused_list := []
    storage_in_use := 0
    total_bytes_allocated := 0
    old_storage_in_use := 0
    target := INITIAL_TARGET
    next_bucket_id := 0 }

/-- `StorageAllocator::want_to_collect_garbage`. -/
def StorageAllocator.want_to_collect_garbage (s : StorageAllocator) : Bool :=
  s.need_to_collect_garbage

/-- The in-use-list walk of `allocate_storage`: find the first bucket
with `bytes_free >= bytes_needed` and bump-allocate from it, leaving
the rest of the list unchanged. -/
def findBump : List Bucket → Nat → Option (List Bucket)
  | [], _ => none
  | b :: rest, bytes =>
    if bytes ≤ b.free then some (b.allocate bytes :: rest)
    else (findBump rest bytes).map (fun r => b :: r)

/-- The unused-list walk of `slow_allocate_storage`: unlink the first
bucket with enough free bytes, returning it and the remaining list. -/
def takeFit : List Bucket → Nat → Option (Bucket × List Bucket)
  | [], _ => none
  | b :: rest, bytes =>
    if bytes ≤ b.free then some (b, rest)
    else (takeFit rest bytes).map (fun p => (p.1, b :: p.2))

/-- `StorageAllocator::allocate_storage` (including the
`slow_allocate_storage` fallback).  `none` models the fatal assertion
failure on a request that is not a whole number of machine words. -/
def StorageAllocator.allocate_storage (s : StorageAllocator) (bytes_needed : Nat) :
    Option StorageAllocator :=
  if bytes_needed % 8 ≠ 0 then none
  else
    let s1 : StorageAllocator := { s with storage_in_use := s.storage_in_use + bytes_needed }
    let s2 : StorageAllocator :=
      if s1.target < s1.storage_in_use then { s1 with need_to_collect_garbage := true } else s1
    match findBump s2.bucket_list bytes_needed with
    | some bl => some { s2 with bucket_list := bl }
    | none =>
      match takeFit s2.unused_list bytes_needed with
      | some p =>
        some { s2 with
                 unused_list := p.2
                 bucket_list := p.1.allocate bytes_needed :: s2.bucket_list }
      | none =>
        let size := max MIN_BUCKET_SIZE (BUCKET_MULTIPLIER * bytes_needed)
        let nb : Bucket := { id := s2.next_bucket_id, size := size, free := size }
        some { s2 with
                 bucket_count := s2.bucket_count + 1
                 total_bytes_allocated := s2.total_bytes_allocated + size
                 bucket_list := nb.allocate bytes_needed :: s2.bucket_list
                 next_bucket_id := s2.next_bucket_id + 1 }

/-- `StorageAllocator::_prepare_to_mark`.  Note that the previous
`bucket_list` is overwritten without being saved anywhere. -/
def StorageAllocator.prepare_to_mark (s : StorageAllocator) : StorageAllocator :=
  { s with
      old_storage_in_use := s.storage_in_use
      bucket_list := s.unused_list
      unused_list := []
      storage_in_use := 0
      need_to_collect_garbage := false }

/-- `StorageAllocator::_sweep_garbage`.  The Rust code sets
`unused_list` to the head of `bucket_list` and then resets every bucket
reachable from it in place; since `bucket_list` is not cleared, both
list heads afterwards point at the same chain of reset buckets. -/
def StorageAllocator.sweep_garbage (s : StorageAllocator) : StorageAllocator :=
  let resetList := s.bucket_list.map Bucket.reset
  { s with
      unused_list := resetList
      bucket_list := resetList
      target := max s.target (TARGET_MULTIPLIER * s.storage_in_use) }

/-- One full storage-GC cycle as driven by
`NodeAllocator::collect_garbage`: `_prepare_to_mark`, then the
`allocate_storage` calls issued while marking copies live `GCVector`s,
then `_sweep_garbage`. -/
def gcStorageCycle (s : StorageAllocator) (markAllocs : List Nat) :
    Option StorageAllocator :=
  (markAllocs.foldlM
      (fun st bytes => StorageAllocator.allocate_storage st bytes)
      s.prepare_to_mark).map StorageAllocator.sweep_garbage

/- ────────────────────────────────────────────────────────────────────
   The two global allocators together (src/core/allocator/node_allocator.rs
   lines 66-79).  The public free function `want_to_collect_garbage`
   calls `NodeAllocator::want_to_collect_garbage`, which returns only
   the node allocator's own flag; the public `ok_to_collect_garbage`
   consults the union of the two flags.
   ──────────────────────────────────────────────────────────────────── -/

structure AllocatorsState where
  /-- `NodeAllocator.need_to_collect_garbage`. -/
  node_need_to_collect_garbage : Bool
  storage : StorageAllocator
deriving DecidableEq

/-- The free function `want_to_collect_garbage` in `node_allocator.rs`:
it locks the node allocator and returns
`NodeAllocator::want_to_collect_garbage`, i.e. the node allocator's
`need_to_collect_garbage` field alone. -/
def want_to_collect_garbage (g : AllocatorsState) : Bool :=
  g.node_need_to_collect_garbage

/-- The guard of `NodeAllocator::ok_to_collect_garbage`: the GC driver
runs when either allocator's flag is set. -/
def ok_to_collect_garbage_runs (g : AllocatorsState) : Bool :=
  g.node_need_to_collect_garbage || g.storage.want_to_collect_garbage

/-- The process-initial allocator state (`NodeAllocator::new` and
`StorageAllocator::new`). -/
def initialAllocators : AllocatorsState :=
  { node_need_to_collect_garbage := false, storage := StorageAllocator.new }

/-- States of the two allocators reachable through the public API:
the initial state, public storage allocations, the arming of the node
allocator's flag when `slow_new_dag_node` runs the last arena into its
reserve region (node_allocator.rs line 235), and a full GC cycle at a
safe point — entered by `ok_to_collect_garbage` when either flag is
set, running the storage cycle (`_prepare_to_mark`, the mark-time
copies' allocations, `_sweep_garbage`) and finally clearing the node
allocator's flag.  Every constructor is a genuine program transition,
so everything `ReachableState` can build is reachable in the
program. -/
inductive ReachableState : AllocatorsState → Prop where
  | init : ReachableState initialAllocators
  | alloc_storage (g : AllocatorsState) (bytes : Nat) (s' : StorageAllocator) :
      ReachableState g →
      g.storage.allocate_storage bytes = some s' →
      ReachableState { g with storage := s' }
  | arm_node_flag (g : AllocatorsState) :
      ReachableState g →
      ReachableState { g with node_need_to_collect_garbage := true }
  | gc_cycle (g : AllocatorsState) (markAllocs : List Nat) (s' : StorageAllocator) :
      ReachableState g →
      ok_to_collect_garbage_runs g = true →
      gcStorageCycle g.storage markAllocs = some s' →
      ReachableState { node_need_to_collect_garbage := false, storage := s' }

/- ────────────────────────────────────────────────────────────────────
   The lazy-sweep scan of `NodeAllocator::allocate_dag_node` and of the
   inner loop of `NodeAllocator::slow_new_dag_node`
   (node_allocator.rs lines 142-177 and 283-301).

   A `Slot` is the GC-relevant view of one `DagNodeCore` in an arena:
   `flags` is the 8-bit flag byte (`enumflags2` assigns bit 0 to
   `Marked` and bit 1 to `NeedsDestruction`, following declaration
   order), `args` is the raw argument pointer (0 = null) and
   `sort_index` the signed sort index.  Neither `DagNodeCore`, the
   concrete `FreeDagNode`, nor any field of theirs implements `Drop`,
   so the `drop_in_place` calls in the scan have no observable effect
   on the slot.
   ──────────────────────────────────────────────────────────────────── -/

structure Slot where
  flags : Nat
  args : Nat
  sort_index : Int
deriving DecidableEq

/-- `DagNodeCore::is_marked`. -/
def Slot.is_marked (s : Slot) : Bool := s.flags.testBit 0

/-- `DagNodeCore::needs_destruction`. -/
def Slot.needs_destruction (s : Slot) : Bool := s.flags.testBit 1

/-- `DagNodeCore::simple_reuse`. -/
def Slot.simple_reuse (s : Slot) : Bool := !s.is_marked && !s.needs_destruction

/-- The scan loop of `allocate_dag_node` over the slots from `next_node`
up to `end_pointer`, returning the updated window together with the
index of the slot handed out; `none` is the cursor reaching
`end_pointer`, which falls through to `slow_new_dag_node`.  A marked
slot has its whole flag byte overwritten with
`DagNodeFlags::default()`, i.e. 0. -/
def alloc_scan : List Slot → Option (List Slot × Nat)
  | [] => none
  | s :: rest =>
    if s.simple_reuse then some (s :: rest, 0)
    else if !s.is_marked then
      some (s :: rest, 0)
    else
      match alloc_scan rest with
      | some (rest', i) => some ({ s with flags := 0 } :: rest', i + 1)
      | none => none

/-- The scan loop at the end of `slow_new_dag_node`: identical to
`alloc_scan` except that a marked slot only has its `Marked` bit
removed (`flags.remove(DagNodeFlag::Marked)`), keeping the other
bits. -/
def slow_scan : List Slot → Option (List Slot × Nat)
  | [] => none
  | s :: rest =>
    if s.simple_reuse then some (s :: rest, 0)
    else if !s.is_marked then
      some (s :: rest, 0)
    else
      match slow_scan rest with
      | some (rest', i) => some ({ s with flags := s.flags &&& 254 } :: rest', i + 1)
      | none => none

/-- Modelled from the spec (section 4.1, lazy sweep step 2), for
comparison with `alloc_scan` and `slow_scan`: a slot with
`Marked==0 && NeedsDestruction==0` is returned untouched; a slot with
`Marked==0 && NeedsDestruction==1` has its destructor run and its
flags cleared before being returned; a slot with `Marked==1` has only
its `Marked` bit cleared and the scan advances. -/
def c4_spec_scan : List Slot → Option (List Slot × Nat)
  | [] => none
  | s :: rest =>
    if s.simple_reuse then some (s :: rest, 0)
    else if !s.is_marked then
      some ({ s with flags := 0 } :: rest, 0)
    else
      match c4_spec_scan rest with
      | some (rest', i) => some ({ s with flags := s.flags &&& 254 } :: rest', i + 1)
      | none => none

/- ────────────────────────────────────────────────────────────────────
   GCVector (src/core/allocator/gc_vector.rs).

   The header is `{length, capacity, data}`; `data` models the backing
   slice of exactly `capacity` cells, so `data.length = capacity` for
   every vector the code builds.
   ──────────────────────────────────────────────────────────────────── -/

structure GCVector (T : Type) where
  length : Nat
  capacity : Nat
  data : List T
deriving DecidableEq

/-- `GCVector::with_capacity`; the backing cells are uninitialized, so
their contents are an arbitrary `junk` value. -/
def GCVector.with_capacity {T : Type} (capacity : Nat) (junk : T) : GCVector T :=
  { length := 0, capacity := capacity, data := List.replicate capacity junk }

/-- `GCVector::push`.  `none` models the fatal error: the explicit
abort when `length == capacity`, or the out-of-bounds slice write
otherwise possible when `length > data.len()`. -/
def GCVector.push {T : Type} (v : GCVector T) (node : T) : Option (GCVector T) :=
  if v.length = v.capacity then none
  else if v.length < v.data.length then
    some { v with data := v.data.set v.length node, length := v.length + 1 }
  else none

/- ────────────────────────────────────────────────────────────────────
   Node creation and child insertion
   (src/core/dag_node_core.rs lines 138-158,
    src/api/dag_node.rs lines 120-148).

   `args` is a raw pointer in Rust whose meaning is fixed by the
   `NeedsDestruction` flag: null = no children, non-null without the
   flag = a single child node, non-null with the flag = a
   `GCVector<DagNodePtr>`.  `NodeArgs` is that discriminated view;
   `insert_child` dispatches exactly as the Rust code does (null check
   first, then the flag), and returns `none` where the code would
   reinterpret memory at the wrong type.
   ──────────────────────────────────────────────────────────────────── -/

inductive Arity where
  | Any
  | None
  | Unspecified
  | Variadic
  | Value (v : Nat)
deriving DecidableEq

inductive NodeArgs where
  | null
  | single (child : Nat)
  | vector (vec : GCVector Nat)
deriving DecidableEq

structure DagNodeM where
  args : NodeArgs
  needs_destruction : Bool
deriving DecidableEq

/-- `DagNodeCore::with_theory` (the slot contents relevant to argument
storage, after the constructor ran on a freshly allocated slot):
`args` is nulled and the flags cleared; then, if the symbol's arity is
a known value greater than 1, an empty `GCVector` of that capacity is
allocated, stored in `args`, and `NeedsDestruction` is set.
`FreeDagNode::new` forwards to this with the `Free` theory tag. -/
def with_theory (arity : Arity) : DagNodeM :=
  let node : DagNodeM := { args := NodeArgs.null, needs_destruction := false }
  match arity with
  | Arity.Value a =>
    if 1 < a then
      { args := NodeArgs.vector (GCVector.with_capacity a 0)
        needs_destruction := true }
    else node
  | _ => node

/-- `DagNode::insert_child`.  Children are node addresses (`Nat`). -/
def insert_child (node : DagNodeM) (arity : Arity) (new_child : Nat) :
    Option DagNodeM :=
  match node.args with
  | NodeArgs.null => some { node with args := NodeArgs.single new_child }
  | a =>
    if node.needs_destruction then
      match a with
      | NodeArgs.vector v =>
        (v.push new_child).map (fun v' => { node with args := NodeArgs.vector v' })
      | _ => none
    else
      match a with
      | NodeArgs.single existing_child =>
        let cap : Nat :=
          match arity with
          | Arity.Value k => max k 2
          | _ => 2
        match (GCVector.with_capacity cap 0).push existing_child with
        | none => none
        | some v1 =>
          match v1.push new_child with
          | none => none
          | some v2 =>
            some { args := NodeArgs.vector v2, needs_destruction := true }
      | _ => none

/- ────────────────────────────────────────────────────────────────────
   Arena sizing after GC (node_allocator.rs lines 44-52 and 375-395).
   The Rust code computes the slop factor and the ideal arena count in
   `f64`; the embedding idealizes that arithmetic over `ℚ` (all the
   quantities involved are exactly representable apart from the final
   quotient, which only goes through `ceil`).
   ──────────────────────────────────────────────────────────────────── -/

def SMALL_MODEL_SLOP : ℚ := 8

def BIG_MODEL_SLOP : ℚ := 2

def LOWER_BOUND : Nat := 4 * 1024 * 1024

def UPPER_BOUND : Nat := 32 * 1024 * 1024

def ARENA_SIZE : Nat := 5460

def RESERVE_SIZE : Nat := 256

/-- The slop-factor computation in `collect_garbage`: start from the
big-model value, use the small-model value below `LOWER_BOUND`, and
interpolate linearly in between. -/
def slop_factor (active : Nat) : ℚ :=
  if active < LOWER_BOUND then SMALL_MODEL_SLOP
  else if active < UPPER_BOUND then
    BIG_MODEL_SLOP +
      (((UPPER_BOUND - active : Nat) : ℚ) * (SMALL_MODEL_SLOP - BIG_MODEL_SLOP)) /
        (((UPPER_BOUND - LOWER_BOUND : Nat) : ℚ))
  else BIG_MODEL_SLOP

/-- `ideal_arena_count` in `collect_garbage`:
`(active_node_count as f64 * slop_factor / ARENA_SIZE).ceil()`. -/
def ideal_arena_count (active : Nat) : Nat :=
  (Int.ceil ((active : ℚ) * slop_factor active / (ARENA_SIZE : ℚ))).toNat

/-- The arena count after the sizing loop
`while self.arena_count < ideal_arena_count { self.allocate_new_arena(); }`. -/
def arena_count_after_gc (arena_count : Nat) (active : Nat) : Nat :=
  max arena_count (ideal_arena_count active)

/- ────────────────────────────────────────────────────────────────────
   The node heap and the mark traversal
   (src/api/dag_node.rs lines 364-396 `DagNode::mark`,
    src/core/root_container.rs lines 108-126 `mark_roots`,
    src/core/allocator/node_allocator.rs lines 304-420 `collect_garbage`
    and 423-491 `sweep_arenas`).

   Nodes live at indices of `Heap.nodes`; argument vectors live at
   indices of `Heap.vecs`, and relocating a vector appends a copy at a
   fresh index.  `MNode.args` is the discriminated view of the raw
   `args` pointer (see `NodeArgs` above); `activeCount` is the global
   `ACTIVE_NODE_COUNT`.
   ──────────────────────────────────────────────────────────────────── -/

inductive Args where
  | empty
  | single (child : Nat)
  | vecRef (v : Nat)
deriving DecidableEq

structure MNode where
  symbol : Nat
  marked : Bool
  needsDestruction : Bool
  args : Args
deriving DecidableEq

structure Heap where
  nodes : List MNode
  vecs : List (List Nat)
  activeCount : Nat
deriving DecidableEq

/-- The child references yielded by an `Args` value, resolving a vector
reference through the heap's vector store (`DagNode::iter_args`). -/
def childrenOfArgs (h : Heap) : Args → List Nat
  | Args.empty => []
  | Args.single c => [c]
  | Args.vecRef v => (h.vecs.get? v).getD []

/-- The children of the node at index `n`. -/
def children (h : Heap) (n : Nat) : List Nat :=
  match h.nodes.get? n with
  | some nd => childrenOfArgs h nd.args
  | none => []

/-- Heap well-formedness of one `Args` value: referenced children are
in range and a referenced vector exists. -/
def argsOk (nlen : Nat) (vecs : List (List Nat)) : Args → Bool
  | Args.empty => true
  | Args.single c => decide (c < nlen)
  | Args.vecRef v =>
    match vecs.get? v with
    | some elems => elems.all (fun c => decide (c < nlen))
    | none => false

/-- Heap well-formedness: every node's argument references resolve. -/
def wfHeap (h : Heap) : Bool :=
  h.nodes.all (fun nd => argsOk h.nodes.length h.vecs nd.args)

/-- `DagNode::mark` (`Sum.inl n` marks the node at `n`) together with the
loop over a vector's elements and over the root list
(`Sum.inr l` marks every node listed in `l` in order).  The `fuel`
argument only forces termination; every theorem below is conditioned on
the traversal completing, and any sufficiently large fuel gives the
same result.  `none` models a failed traversal: out of fuel, or a
dangling node or vector reference (an assertion failure in the code).

An unmarked node first bumps `ACTIVE_NODE_COUNT` and sets `Marked`;
then, for a single child, it recurses, and for a vector of children it
recurses on every element and afterwards replaces `args` by
`GCVector::copy` of the vector: a newly allocated vector, at a fresh
index, with the same contents. -/
def markStep : Nat → Heap → Sum Nat (List Nat) → Option Heap
  | 0, _, _ => none
  | fuel + 1, h, Sum.inl n =>
    match h.nodes.get? n with
    | none => none
    | some node =>
      if node.marked then some h
      else
        let h1 : Heap :=
          { h with
              activeCount := h.activeCount + 1
              nodes := h.nodes.set n { node with marked := true } }
        match node.args with
        | Args.empty => some h1
        | Args.single c => markStep fuel h1 (Sum.inl c)
        | Args.vecRef v =>
          match h.vecs.get? v with
          | none => none
          | some elems =>
            match markStep fuel h1 (Sum.inr elems) with
            | none => none
            | some h2 =>
              match h2.nodes.get? n with
              | none => none
              | some node2 =>
                some { h2 with
                         vecs := h2.vecs ++ [elems]
                         nodes := h2.nodes.set n
                           { node2 with args := Args.vecRef h2.vecs.length } }
  | _ + 1, h, Sum.inr [] => some h
  | fuel + 1, h, Sum.inr (c :: rest) =>
    match markStep fuel h (Sum.inl c) with
    | none => none
    | some h1 => markStep fuel h1 (Sum.inr rest)

/-- `mark_roots`: call `mark` on every registered root in list order. -/
def mark_roots (h : Heap) (roots : List Nat) (fuel : Nat) : Option Heap :=
  markStep fuel h (Sum.inr roots)

/-- The per-slot tidy of `NodeAllocator::sweep_arenas`: a marked slot
has its `Marked` bit removed; an unmarked slot has its destructor run
(a no-op, as no node type implements `Drop`) and its flags cleared. -/
def tidySlot (nd : MNode) : MNode :=
  if nd.marked then { nd with marked := false }
  else { nd with marked := false, needsDestruction := false }

/-- The tidy pass of `sweep_arenas`, followed by the reset of
`ACTIVE_NODE_COUNT` in `collect_garbage`.  The Rust loop only visits
the slots between the scan cursor and the previous high-water mark; the
model applies the per-slot tidy to every slot, which is harmless for
the properties proved here since `tidySlot` touches nothing beyond the
flag bits (in particular it preserves `symbol` and `args`). -/
def tidyHeap (h : Heap) : Heap :=
  { h with nodes := h.nodes.map tidySlot, activeCount := 0 }

/-- The node-side of `NodeAllocator::collect_garbage` as it affects the
heap: `sweep_arenas` tidies the unswept slots, `ACTIVE_NODE_COUNT` is
reset to 0, and the mark phase walks the roots (the storage phases and
the arena sizing do not touch node or vector contents). -/
def collect_garbage_model (h : Heap) (roots : List Nat) (fuel : Nat) : Option Heap :=
  mark_roots (tidyHeap h) roots fuel

/-- Transitive reachability from the root set through argument
references. -/
inductive Reaches (h : Heap) (roots : List Nat) : Nat → Prop where
  | root {n : Nat} : n ∈ roots → Reaches h roots n
  | step {m c : Nat} : Reaches h roots m → c ∈ children h m → Reaches h roots c

/-- Number of marked nodes in a slot list. -/
def cMarked : List MNode → Nat
  | [] => 0
  | x :: xs => (if x.marked then 1 else 0) + cMarked xs

/-- Same argument shape: the relocation performed during mark may change
which vector a node references, but never the kind of reference. -/
def sameShape : Args → Args → Prop
  | Args.empty, Args.empty => True
  | Args.single c, Args.single c' => c = c'
  | Args.vecRef _, Args.vecRef _ => True
  | _, _ => False

/-- The nodes-only part of the mark invariant relating one node before
and after a heap transformation. -/
def nodePreserved (h h' : Heap) (a b : MNode) : Prop :=
  b.symbol = a.symbol ∧ b.needsDestruction = a.needsDestruction ∧
    (a.marked = true → b.marked = true) ∧ sameShape a.args b.args ∧
    childrenOfArgs h a.args = childrenOfArgs h' b.args

/-- Everything the mark traversal preserves, from heap `h` to heap `h'`:
the slot array length, the existing vector store, every node's symbol,
flags discriminator and children, the balance between
`ACTIVE_NODE_COUNT` and the number of marked slots, and heap
well-formedness. -/
def MarkInv (h h' : Heap) : Prop :=
  h'.nodes.length = h.nodes.length ∧
  h.vecs.length ≤ h'.vecs.length ∧
  (∀ v, v < h.vecs.length → h'.vecs.get? v = h.vecs.get? v) ∧
  (∀ i a, h.nodes.get? i = some a →
    ∃ b, h'.nodes.get? i = some b ∧ nodePreserved h h' a b) ∧
  h'.activeCount + cMarked h.nodes = h.activeCount + cMarked h'.nodes ∧
  wfHeap h' = true


/- ────────────────────────────────────────────────────────────────────
   Helper lemmas about lists and the mark invariant.
   ──────────────────────────────────────────────────────────────────── -/

/- ────────────────────────────────────────────────────────────────────
   Concrete states used by the witness and counterexample theorems.
   ──────────────────────────────────────────────────────────────────── -/

/-- A storage allocator with one in-use bucket (id 0) holding 136 live
bytes, and no unused buckets: the state before a GC cycle in which the
mark phase copies 16 bytes of live data. -/
def sampleStorage : StorageAllocator :=
  { need_to_collect_garbage := false
    bucket_count := 1
    bucket_list := [{ id := 0, size := 262136, free := 262000 }]
    unused_list := []
    storage_in_use := 136
    total_bytes_allocated := 262136
    old_storage_in_use := 0
    target := 225280
    next_bucket_id := 1 }

/-- What `gcStorageCycle sampleStorage [16]` computes: bucket 0 has
vanished from both lists, and the freshly created bucket 1 — the one
holding the 16 bytes copied during mark — has been reset and placed on
both lists at once. -/
def sampleStorageAfter : StorageAllocator :=
  { need_to_collect_garbage := false
    bucket_count := 2
    bucket_list := [{ id := 1, size := 262136, free := 262136 }]
    unused_list := [{ id := 1, size := 262136, free := 262136 }]
    storage_in_use := 16
    total_bytes_allocated := 524272
    old_storage_in_use := 136
    target := 225280
    next_bucket_id := 2 }

/-- The storage allocator after a single 225288-byte allocation from the
initial state: `storage_in_use` exceeds the 225280-byte target, so its
want-GC flag is set. -/
def overTargetStorage : StorageAllocator :=
  { need_to_collect_garbage := true
    bucket_count := 1
    bucket_list := [{ id := 0, size := 1802304, free := 1577016 }]
    unused_list := []
    storage_in_use := 225288
    total_bytes_allocated := 1802304
    old_storage_in_use := 0
    target := 225280
    next_bucket_id := 1 }

/-- The storage allocator after the `overTargetStorage` state goes
through a GC cycle with no mark-time copies: `_prepare_to_mark` drops
the in-use chain and clears the flag, and `_sweep_garbage` leaves both
lists empty and the target unchanged. -/
def postGcStorage : StorageAllocator :=
  { need_to_collect_garbage := false
    bucket_count := 1
    bucket_list := []
    unused_list := []
    storage_in_use := 0
    total_bytes_allocated := 1802304
    old_storage_in_use := 225288
    target := 225280
    next_bucket_id := 1 }

/-- The allocator pair right after that GC cycle: `collect_garbage`
has also cleared the node allocator's flag. -/
def postGcState : AllocatorsState :=
  { node_need_to_collect_garbage := false, storage := postGcStorage }

/-- A two-node heap: node 0 carries a one-element argument vector
(vector 0 = [1]) referencing node 1, which has no arguments. -/
def sampleHeap : Heap :=
  { nodes :=
      [{ symbol := 10, marked := false, needsDestruction := true, args := Args.vecRef 0 },
       { symbol := 11, marked := false, needsDestruction := false, args := Args.empty }]
    vecs := [[1]]
    activeCount := 0 }

/-- `sampleHeap` after `mark` on node 0: both nodes marked, the count at
2, and node 0 repointed at the freshly appended copy (vector 1) of its
argument vector. -/
def sampleHeapMarked : Heap :=
  { nodes :=
      [{ symbol := 10, marked := true, needsDestruction := true, args := Args.vecRef 1 },
       { symbol := 11, marked := true, needsDestruction := false, args := Args.empty }]
    vecs := [[1], [1]]
    activeCount := 2 }

/-- A one-node heap whose only node is pinned by a root. -/
def rootOnlyHeap : Heap :=
  { nodes := [{ symbol := 7, marked := false, needsDestruction := false, args := Args.empty }]
    vecs := []
    activeCount := 0 }

/-- `rootOnlyHeap` after a full GC cycle with node 0 rooted: the live
node is left with its `Marked` bit set. -/
def rootOnlyHeapAfter : Heap :=
  { nodes := [{ symbol := 7, marked := true, needsDestruction := false, args := Args.empty }]
    vecs := []
    activeCount := 1 }

theorem all_of_get? {α : Type} {p : α → Bool} {l : List α} {n : Nat} {a : α}
    (hall : l.all p = true) (hg : l.get? n = some a) : p a = true := by
  have hmem : a ∈ l := List.get?_mem hg
  exact (List.all_eq_true.mp hall) a hmem

theorem all_set_of {α : Type} {p : α → Bool} {l : List α} {n : Nat} {b : α}
    (hall : l.all p = true) (hpb : p b = true) : (l.set n b).all p = true := by
  refine List.all_eq_true.mpr ?_
  intro x hx
  rcases List.mem_or_eq_of_mem_set hx with hmem | hxb
  · exact (List.all_eq_true.mp hall) x hmem
  · subst hxb; exact hpb

theorem all_imp {α : Type} {p q : α → Bool} {l : List α}
    (himp : ∀ x, p x = true → q x = true) (hall : l.all p = true) : l.all q = true := by
  refine List.all_eq_true.mpr ?_
  intro x hx
  exact himp x ((List.all_eq_true.mp hall) x hx)

theorem get?_append_last {α : Type} (l : List α) (e : α) :
    (l ++ [e]).get? l.length = some e := by
  induction l with
  | nil => rfl
  | cons x xs ih => simp

theorem cMarked_set (l : List MNode) (n : Nat) (a b : MNode)
    (hg : l.get? n = some a) :
    cMarked (l.set n b) + (if a.marked then 1 else 0) =
      cMarked l + (if b.marked then 1 else 0) := by
  induction l generalizing n with
  | nil => simp at hg
  | cons x xs ih =>
    cases n with
    | zero =>
      simp only [List.get?] at hg
      cases hg
      simp only [List.set, cMarked]
      omega
    | succ m =>
      simp only [List.get?] at hg
      simp only [List.set, cMarked]
      have := ih m hg
      omega

theorem sameShape_refl (a : Args) : sameShape a a := by
  cases a <;> simp [sameShape]

theorem sameShape_trans {a b c : Args} (h1 : sameShape a b) (h2 : sameShape b c) :
    sameShape a c := by
  cases a <;> cases b <;> cases c <;> simp_all [sameShape]

theorem markInv_refl {h : Heap} (hwf : wfHeap h = true) : MarkInv h h := by
  refine ⟨rfl, le_refl _, fun v _ => rfl, ?_, rfl, hwf⟩
  intro i a hg
  exact ⟨a, hg, rfl, rfl, fun hm => hm, sameShape_refl _, rfl⟩

theorem markInv_trans {h h1 h2 : Heap} (i1 : MarkInv h h1) (i2 : MarkInv h1 h2) :
    MarkInv h h2 := by
  obtain ⟨len1, vlen1, vget1, node1, cnt1, wf1⟩ := i1
  obtain ⟨len2, vlen2, vget2, node2, cnt2, wf2⟩ := i2
  refine ⟨len2.trans len1, le_trans vlen1 vlen2, ?_, ?_, ?_, wf2⟩
  · intro v hv
    exact (vget2 v (lt_of_lt_of_le hv vlen1)).trans (vget1 v hv)
  · intro i a hg
    obtain ⟨b, hb, sb, db, mb, shb, chb⟩ := node1 i a hg
    obtain ⟨c, hc, sc, dc, mc, shc, chc⟩ := node2 i b hb
    exact ⟨c, hc, sc.trans sb, dc.trans db, fun hm => mc (mb hm),
      sameShape_trans shb shc, chb.trans chc⟩
  · omega

theorem get?_lt_length {α : Type} {l : List α} {n : Nat} {a : α}
    (hg : l.get? n = some a) : n < l.length := by
  by_contra hge
  rw [List.get?_eq_none.mpr (le_of_not_lt hge)] at hg
  cases hg

theorem childrenOfArgs_congr {h h' : Heap} (hvecs : h'.vecs = h.vecs) (a : Args) :
    childrenOfArgs h' a = childrenOfArgs h a := by
  cases a <;> simp [childrenOfArgs, hvecs]

theorem childrenOfArgs_ext {h h' : Heap} {a : Args} {nlen : Nat}
    (hok : argsOk nlen h.vecs a = true)
    (hget : ∀ v, v < h.vecs.length → h'.vecs.get? v = h.vecs.get? v) :
    childrenOfArgs h' a = childrenOfArgs h a := by
  cases a with
  | empty => rfl
  | single c => rfl
  | vecRef v =>
    simp only [childrenOfArgs]
    simp only [argsOk] at hok
    cases hv : h.vecs.get? v with
    | none => rw [hv] at hok; simp at hok
    | some elems => rw [hget v (get?_lt_length hv), hv]

theorem argsOk_append {nlen : Nat} {vecs : List (List Nat)} {e : List Nat} {a : Args}
    (h : argsOk nlen vecs a = true) : argsOk nlen (vecs ++ [e]) a = true := by
  cases a with
  | empty => rfl
  | single c => exact h
  | vecRef v =>
    simp only [argsOk] at h ⊢
    cases hv : vecs.get? v with
    | none => rw [hv] at h; simp at h
    | some elems =>
      rw [List.get?_append (get?_lt_length hv), hv]
      rw [hv] at h
      exact h

/-- Marking one unmarked node (setting its `Marked` bit and bumping
`ACTIVE_NODE_COUNT`) satisfies the mark invariant. -/
theorem markInv_set_marked {h : Heap} {n : Nat} {a : MNode}
    (hwf : wfHeap h = true) (hg : h.nodes.get? n = some a) (hm : a.marked = false) :
    MarkInv h
      { h with
          activeCount := h.activeCount + 1
          nodes := h.nodes.set n { a with marked := true } } := by
  have hlt : n < h.nodes.length := get?_lt_length hg
  have hwfAll : h.nodes.all (fun nd => argsOk h.nodes.length h.vecs nd.args) = true := hwf
  refine ⟨List.length_set _ _ _, le_refl _, fun v _ => rfl, ?_, ?_, ?_⟩
  · intro i b hgb
    by_cases hin : i = n
    · subst hin
      have hba : b = a := by rw [hg] at hgb; exact (Option.some.inj hgb).symm
      subst hba
      refine ⟨{ b with marked := true }, ?_, rfl, rfl, fun _ => rfl, sameShape_refl _, ?_⟩
      · exact List.get?_set_eq_of_lt _ hlt
      · exact (childrenOfArgs_congr rfl _).symm
    · refine ⟨b, ?_, rfl, rfl, fun hmb => hmb, sameShape_refl _, ?_⟩
      · rw [List.get?_set_ne _ _ (fun he => hin he.symm)]
        exact hgb
      · exact (childrenOfArgs_congr rfl _).symm
  · have := cMarked_set h.nodes n a { a with marked := true } hg
    rw [hm] at this
    simp only [if_false, if_true, Bool.false_eq_true] at this
    simp only []
    omega
  · simp only [wfHeap, List.length_set]
    refine all_set_of ?_ ?_
    · exact hwfAll
    · have hok := all_of_get? hwfAll hg
      exact hok

/-- Relocating the argument vector of a node (appending a copy of its
element list to the vector store and repointing `args` at the copy)
satisfies the mark invariant. -/
theorem markInv_reloc {h2 : Heap} {n : Nat} {node2 : MNode} {elems : List Nat}
    (hwf : wfHeap h2 = true) (hg : h2.nodes.get? n = some node2)
    (helems : elems.all (fun c => decide (c < h2.nodes.length)) = true)
    (hchild : childrenOfArgs h2 node2.args = elems)
    (hshape : ∃ w, node2.args = Args.vecRef w) :
    MarkInv h2
      { h2 with
          vecs := h2.vecs ++ [elems]
          nodes := h2.nodes.set n { node2 with args := Args.vecRef h2.vecs.length } } := by
  have hlt : n < h2.nodes.length := get?_lt_length hg
  have hwfAll : h2.nodes.all (fun nd => argsOk h2.nodes.length h2.vecs nd.args) = true := hwf
  have hgetpre : ∀ v, v < h2.vecs.length → (h2.vecs ++ [elems]).get? v = h2.vecs.get? v :=
    fun v hv => List.get?_append hv
  refine ⟨List.length_set _ _ _, by simp, hgetpre, ?_, ?_, ?_⟩
  · intro i b hgb
    by_cases hin : i = n
    · subst hin
      have hba : b = node2 := by rw [hg] at hgb; exact (Option.some.inj hgb).symm
      subst hba
      obtain ⟨w, hw⟩ := hshape
      refine ⟨{ b with args := Args.vecRef h2.vecs.length }, ?_, rfl, rfl, fun hmb => hmb, ?_, ?_⟩
      · exact List.get?_set_eq_of_lt _ hlt
      · rw [hw]; simp [sameShape]
      · rw [hchild]
        simp only [childrenOfArgs]
        rw [get?_append_last]
        rfl
    · refine ⟨b, ?_, rfl, rfl, fun hmb => hmb, sameShape_refl _, ?_⟩
      · rw [List.get?_set_ne _ _ (fun he => hin he.symm)]
        exact hgb
      · have hokb := all_of_get? hwfAll hgb
        exact (childrenOfArgs_ext hokb hgetpre).symm
  · have := cMarked_set h2.nodes n node2 { node2 with args := Args.vecRef h2.vecs.length } hg
    simp only [] at this ⊢
    omega
  · simp only [wfHeap, List.length_set]
    refine all_set_of ?_ ?_
    · exact all_imp (fun x hx => argsOk_append hx) hwf
    · simp only [argsOk, get?_append_last]
      exact helems

theorem wf_vec_elems {h : Heap} {n w : Nat} {nd : MNode}
    (hwf : wfHeap h = true) (hg : h.nodes.get? n = some nd)
    (hw : nd.args = Args.vecRef w) :
    ∃ e, h.vecs.get? w = some e ∧
      e.all (fun c => decide (c < h.nodes.length)) = true := by
  have hwfAll : h.nodes.all (fun x => argsOk h.nodes.length h.vecs x.args) = true := hwf
  have hok := all_of_get? hwfAll hg
  simp only [hw, argsOk] at hok
  cases he : h.vecs.get? w with
  | none => rw [he] at hok; simp at hok
  | some e =>
    rw [he] at hok
    exact ⟨e, rfl, hok⟩

/-- The master lemma for the mark traversal: a completed `markStep` run
preserves the structure of the heap in the sense of `MarkInv`. -/
theorem markStep_inv :
    ∀ (fuel : Nat) (h : Heap) (t : Sum Nat (List Nat)) (h' : Heap),
      wfHeap h = true → markStep fuel h t = some h' → MarkInv h h' := by
  intro fuel
  induction fuel with
  | zero =>
    intro h t h' _ hstep
    simp [markStep] at hstep
  | succ fuel ih =>
    intro h t h' hwf hstep
    cases t with
    | inr l =>
      cases l with
      | nil =>
        simp only [markStep] at hstep
        cases hstep
        exact markInv_refl hwf
      | cons c rest =>
        simp only [markStep] at hstep
        split at hstep
        · exact Option.noConfusion hstep
        · next hmid hA =>
          have i1 := ih h (Sum.inl c) hmid hwf hA
          have i2 := ih hmid (Sum.inr rest) h' i1.2.2.2.2.2 hstep
          exact markInv_trans i1 i2
    | inl n =>
      simp only [markStep] at hstep
      split at hstep
      · exact Option.noConfusion hstep
      · next node hg =>
        have hlt : n < h.nodes.length := get?_lt_length hg
        split at hstep
        · next hm =>
          cases hstep
          exact markInv_refl hwf
        · next hm =>
          have hmf : node.marked = false := by
            revert hm; cases node.marked <;> simp
          have i1 := markInv_set_marked hwf hg hmf
          have wf1 := i1.2.2.2.2.2
          split at hstep
          · next hargs =>
            cases hstep
            exact i1
          · next c hargs =>
            have i2 := ih _ (Sum.inl c) h' wf1 hstep
            exact markInv_trans i1 i2
          · next v hargs =>
            split at hstep
            · exact Option.noConfusion hstep
            · next elems hv =>
              split at hstep
              · exact Option.noConfusion hstep
              · next h2 hrec =>
                have i2 := ih _ (Sum.inr elems) h2 wf1 hrec
                have wf2 := i2.2.2.2.2.2
                have hg1 :
                    ({ h with
                        activeCount := h.activeCount + 1
                        nodes := h.nodes.set n { node with marked := true } } : Heap).nodes.get? n
                      = some { node with marked := true } :=
                  List.get?_set_eq_of_lt _ hlt
                obtain ⟨node2, hg2, hsym2, hnd2, hmk2, hsh2, hch2⟩ := i2.2.2.2.1 n _ hg1
                split at hstep
                · exact Option.noConfusion hstep
                · next node2' hg2' =>
                  have hnode2 : node2' = node2 := by
                    rw [hg2'] at hg2
                    exact Option.some.inj hg2
                  subst hnode2
                  cases hstep
                  have hshape : ∃ w, node2'.args = Args.vecRef w := by
                    revert hsh2
                    simp only [hargs]
                    cases node2'.args <;> simp [sameShape]
                  obtain ⟨w, hw⟩ := hshape
                  have hchild : childrenOfArgs h2 node2'.args = elems := by
                    rw [← hch2]
                    simp only [hargs, childrenOfArgs, hv]
                    rfl
                  have helems : elems.all (fun c => decide (c < h2.nodes.length)) = true := by
                    obtain ⟨e2, he2, hall2⟩ := wf_vec_elems wf2 hg2' hw
                    have he : childrenOfArgs h2 node2'.args = e2 := by
                      simp only [hw, childrenOfArgs, he2]
                      rfl
                    rw [hchild] at he
                    rw [he]
                    exact hall2
                  have i3 := markInv_reloc wf2 hg2' helems hchild ⟨w, hw⟩
                  exact markInv_trans (markInv_trans i1 i2) i3

/-- A completed `mark` call leaves its target node marked. -/
theorem markStep_marks_inl (fuel : Nat) (h : Heap) (n : Nat) (h' : Heap)
    (hwf : wfHeap h = true) (hstep : markStep fuel h (Sum.inl n) = some h') :
    ∃ b, h'.nodes.get? n = some b ∧ b.marked = true := by
  cases fuel with
  | zero => simp [markStep] at hstep
  | succ fuel =>
    simp only [markStep] at hstep
    split at hstep
    · exact Option.noConfusion hstep
    · next node hg =>
      have hlt := get?_lt_length hg
      split at hstep
      · next hm =>
        cases hstep
        exact ⟨node, hg, hm⟩
      · next hm =>
        have hmf : node.marked = false := by
          revert hm; cases node.marked <;> simp
        have i1 := markInv_set_marked hwf hg hmf
        have wf1 := i1.2.2.2.2.2
        have hg1 :
            ({ h with
                activeCount := h.activeCount + 1
                nodes := h.nodes.set n { node with marked := true } } : Heap).nodes.get? n
              = some { node with marked := true } :=
          List.get?_set_eq_of_lt _ hlt
        split at hstep
        · next hargs =>
          cases hstep
          exact ⟨{ node with marked := true }, hg1, rfl⟩
        · next c hargs =>
          have i2 := markStep_inv fuel _ (Sum.inl c) h' wf1 hstep
          obtain ⟨b, hb, _, _, hmono, _, _⟩ := i2.2.2.2.1 n _ hg1
          exact ⟨b, hb, hmono rfl⟩
        · next v hargs =>
          split at hstep
          · exact Option.noConfusion hstep
          · next elems hv =>
            split at hstep
            · exact Option.noConfusion hstep
            · next h2 hrec =>
              have i2 := markStep_inv fuel _ (Sum.inr elems) h2 wf1 hrec
              obtain ⟨node2, hg2, _, _, hmono, _, _⟩ := i2.2.2.2.1 n _ hg1
              split at hstep
              · exact Option.noConfusion hstep
              · next node2' hg2' =>
                have hn2 : node2' = node2 := by
                  rw [hg2'] at hg2
                  exact Option.some.inj hg2
                subst hn2
                cases hstep
                have hlt2 : n < h2.nodes.length := by
                  have hlen2 := i2.1
                  simp only [List.length_set] at hlen2
                  omega
                refine ⟨{ node2' with args := Args.vecRef h2.vecs.length }, ?_, ?_⟩
                · exact List.get?_set_eq_of_lt _ hlt2
                · exact hmono rfl

/-- A completed `mark_roots`-style loop leaves every listed node
marked. -/
theorem markStep_marks_list :
    ∀ (fuel : Nat) (h : Heap) (l : List Nat) (h' : Heap),
      wfHeap h = true → markStep fuel h (Sum.inr l) = some h' →
      ∀ c ∈ l, ∃ b, h'.nodes.get? c = some b ∧ b.marked = true := by
  intro fuel
  induction fuel with
  | zero =>
    intro h l h' _ hstep
    simp [markStep] at hstep
  | succ fuel ih =>
    intro h l h' hwf hstep
    cases l with
    | nil =>
      intro c hc
      simp at hc
    | cons c0 rest =>
      simp only [markStep] at hstep
      split at hstep
      · exact Option.noConfusion hstep
      · next hmid hA =>
        intro c hc
        have i1 := markStep_inv fuel h (Sum.inl c0) hmid hwf hA
        rcases List.mem_cons.mp hc with hc0 | hcrest
        · subst hc0
          obtain ⟨b, hb, hbm⟩ := markStep_marks_inl fuel h c hmid hwf hA
          have i2 := markStep_inv fuel hmid (Sum.inr rest) h' i1.2.2.2.2.2 hstep
          obtain ⟨b', hb', _, _, hmono, _, _⟩ := i2.2.2.2.1 c b hb
          exact ⟨b', hb', hmono hbm⟩
        · exact ih hmid rest h' i1.2.2.2.2.2 hstep c hcrest

theorem tidySlot_args (nd : MNode) : (tidySlot nd).args = nd.args := by
  unfold tidySlot
  split <;> rfl

theorem tidySlot_symbol (nd : MNode) : (tidySlot nd).symbol = nd.symbol := by
  unfold tidySlot
  split <;> rfl

theorem tidyHeap_children (h : Heap) : ∀ m, children (tidyHeap h) m = children h m := by
  intro m
  simp only [children, tidyHeap, List.get?_map]
  cases hg : h.nodes.get? m with
  | none => rfl
  | some a =>
    show childrenOfArgs (tidyHeap h) (tidySlot a).args = childrenOfArgs h a.args
    rw [tidySlot_args]
    exact childrenOfArgs_congr rfl _

theorem tidyHeap_wf {h : Heap} (hwf : wfHeap h = true) : wfHeap (tidyHeap h) = true := by
  have hwfAll : h.nodes.all (fun nd => argsOk h.nodes.length h.vecs nd.args) = true := hwf
  simp only [wfHeap, tidyHeap, List.length_map, List.all_map]
  refine all_imp ?_ hwfAll
  intro x hx
  simp only [Function.comp, tidySlot_args]
  exact hx

theorem reaches_of_children_eq {hA hB : Heap} {roots : List Nat}
    (hch : ∀ m, children hA m = children hB m) :
    ∀ n, Reaches hA roots n → Reaches hB roots n := by
  intro n hr
  induction hr with
  | root hmem => exact Reaches.root hmem
  | step hr hc ih =>
    refine Reaches.step ih ?_
    rw [← hch _]
    exact hc

theorem markInv_children_eq {h h' : Heap} (inv : MarkInv h h') :
    ∀ m, children h m = children h' m := by
  intro m
  cases hg : h.nodes.get? m with
  | none =>
    have hge : h.nodes.length ≤ m := List.get?_eq_none.mp hg
    have hg' : h'.nodes.get? m = none := by
      rw [List.get?_eq_none, inv.1]
      exact hge
    simp only [children]
    rw [hg, hg']
  | some a =>
    obtain ⟨b, hb, _, _, _, _, hch⟩ := inv.2.2.2.1 m a hg
    simp only [children, hg, hb]
    exact hch

/- ────────────────────────────────────────────────────────────────────
   Claim theorems.
   ──────────────────────────────────────────────────────────────────── -/

/-- Claim C1: evaluating the embedded storage-GC cycle at a concrete
failing input.  Starting from one in-use bucket (id 0) and an empty
unused list, with a single 16-byte allocation during mark, the cycle
ends with bucket 0 on neither list (instead of on the unused list,
reset), while the bucket that received the mark-time copy (id 1) has
been reset and is on both lists (instead of remaining in use with its
contents intact).  This contradicts the claim and the sweep's own
documentation in `storage_allocator.rs`. -/
theorem c1_sweep_resets_copy_targets :
    gcStorageCycle sampleStorage [16] = some sampleStorageAfter ∧
    sampleStorageAfter.unused_list.all (fun b => b.id != 0) = true ∧
    sampleStorageAfter.bucket_list.all (fun b => b.free == b.size) = true ∧
    sampleStorageAfter.bucket_list = sampleStorageAfter.unused_list := by
  refine ⟨by decide, by decide, by decide, by decide⟩

/-- Claim C2 counterexample: a reachable state — reached from the
initial allocators by one public 225288-byte storage allocation — in
which the storage allocator's want-GC flag is set but the node
allocator's is not: `want_to_collect_garbage` returns `false` there,
while the union of the two flags (the guard of `ok_to_collect_garbage`)
is `true`. -/
theorem c2_counterexample :
    ReachableState
      { node_need_to_collect_garbage := false, storage := overTargetStorage } ∧
    want_to_collect_garbage
      { node_need_to_collect_garbage := false, storage := overTargetStorage } = false ∧
    ok_to_collect_garbage_runs
      { node_need_to_collect_garbage := false, storage := overTargetStorage } = true := by
  refine ⟨?_, rfl, rfl⟩
  have hstep : StorageAllocator.new.allocate_storage 225288 = some overTargetStorage := by
    decide
  exact ReachableState.alloc_storage initialAllocators 225288 overTargetStorage
    ReachableState.init hstep

/-- Claim C2 (amended): in every reachable allocator state the public
`want_to_collect_garbage` returns true if and only if the
`NodeAllocator`'s `need_to_collect_garbage` flag is set; the
`StorageAllocator`'s flag does not feed into it — the union of the two
flags is consulted only by the guard of `ok_to_collect_garbage` when
deciding to run a GC. -/
theorem c2_want_is_node_flag_only (g : AllocatorsState) (_hreach : ReachableState g) :
    want_to_collect_garbage g = g.node_need_to_collect_garbage ∧
    ok_to_collect_garbage_runs g =
      (g.node_need_to_collect_garbage || g.storage.need_to_collect_garbage) :=
  ⟨rfl, rfl⟩

/-- Witness for the amended C2 theorem at a reachable post-GC state:
initial allocators, one public 225288-byte allocation (which trips the
storage flag), then a full GC cycle at the safe point with no
mark-time copies. -/
theorem c2_want_is_node_flag_only_witness :
    want_to_collect_garbage postGcState = postGcState.node_need_to_collect_garbage ∧
    ok_to_collect_garbage_runs postGcState =
      (postGcState.node_need_to_collect_garbage ||
        postGcState.storage.need_to_collect_garbage) := by
  have h1 : ReachableState
      { node_need_to_collect_garbage := false, storage := overTargetStorage } :=
    ReachableState.alloc_storage initialAllocators 225288 overTargetStorage
      ReachableState.init (by decide)
  have h2 : ReachableState postGcState :=
    ReachableState.gc_cycle
      { node_need_to_collect_garbage := false, storage := overTargetStorage }
      [] postGcState.storage h1 (by decide) (by decide)
  exact c2_want_is_node_flag_only postGcState h2

theorem simple_reuse_not_marked {s : Slot} (h : s.simple_reuse = true) :
    s.is_marked = false := by
  simp only [Slot.simple_reuse, Bool.and_eq_true, Bool.not_eq_true'] at h
  exact h.1

theorem alloc_scan_found :
    ∀ (l l' : List Slot) (i : Nat), alloc_scan l = some (l', i) →
      ∃ s, l.get? i = some s ∧ l'.get? i = some s ∧ s.is_marked = false ∧
        l'.length = l.length := by
  intro l
  induction l with
  | nil =>
    intro l' i h
    simp [alloc_scan] at h
  | cons s rest ih =>
    intro l' i h
    by_cases hsr : s.simple_reuse = true
    · simp only [alloc_scan, hsr, if_true] at h
      cases h
      exact ⟨s, rfl, rfl, simple_reuse_not_marked hsr, rfl⟩
    · rw [Bool.not_eq_true] at hsr
      by_cases hm : s.is_marked = true
      · simp only [alloc_scan, hsr, hm, Bool.false_eq_true, if_false, Bool.not_true] at h
        cases ha : alloc_scan rest with
        | none => rw [ha] at h; exact Option.noConfusion h
        | some p =>
          obtain ⟨rest', i0⟩ := p
          rw [ha] at h
          cases h
          obtain ⟨t, hti, ht'i, htm, hlen⟩ := ih rest' i0 ha
          refine ⟨t, ?_, ?_, htm, ?_⟩
          · simpa using hti
          · simpa using ht'i
          · simp [hlen]
      · rw [Bool.not_eq_true] at hm
        simp only [alloc_scan, hsr, hm, Bool.false_eq_true, if_false, Bool.not_false,
          if_true] at h
        cases h
        exact ⟨s, rfl, rfl, hm, rfl⟩

theorem slow_scan_found :
    ∀ (l l' : List Slot) (i : Nat), slow_scan l = some (l', i) →
      ∃ s, l.get? i = some s ∧ l'.get? i = some s ∧ s.is_marked = false ∧
        l'.length = l.length := by
  intro l
  induction l with
  | nil =>
    intro l' i h
    simp [slow_scan] at h
  | cons s rest ih =>
    intro l' i h
    by_cases hsr : s.simple_reuse = true
    · simp only [slow_scan, hsr, if_true] at h
      cases h
      exact ⟨s, rfl, rfl, simple_reuse_not_marked hsr, rfl⟩
    · rw [Bool.not_eq_true] at hsr
      by_cases hm : s.is_marked = true
      · simp only [slow_scan, hsr, hm, Bool.false_eq_true, if_false, Bool.not_true] at h
        cases ha : slow_scan rest with
        | none => rw [ha] at h; exact Option.noConfusion h
        | some p =>
          obtain ⟨rest', i0⟩ := p
          rw [ha] at h
          cases h
          obtain ⟨t, hti, ht'i, htm, hlen⟩ := ih rest' i0 ha
          refine ⟨t, ?_, ?_, htm, ?_⟩
          · simpa using hti
          · simpa using ht'i
          · simp [hlen]
      · rw [Bool.not_eq_true] at hm
        simp only [slow_scan, hsr, hm, Bool.false_eq_true, if_false, Bool.not_false,
          if_true] at h
        cases h
        exact ⟨s, rfl, rfl, hm, rfl⟩

/-- Claim C3 counterexample: a reusable slot carrying a stale `Reduced`
flag (bit 2, value 4), a stale non-null `args` and a stale `sort_index`
of 5 — the state a node allocated earlier in the epoch, mutated and
dropped is left in — is handed out by the `allocate_dag_node` scan
exactly as it is: its flags are not zero, its `args` is not null and
its `sort_index` is not -1. -/
theorem c3_counterexample :
    alloc_scan [{ flags := 4, args := 8, sort_index := 5 }] =
      some ([{ flags := 4, args := 8, sort_index := 5 }], 0) ∧
    (Slot.mk 4 8 5).flags ≠ 0 ∧
    (Slot.mk 4 8 5).args ≠ 0 ∧
    (Slot.mk 4 8 5).sort_index ≠ -1 := by
  refine ⟨by decide, by decide, by decide, by decide⟩

/-- Claim C3 (amended): every allocation that finds a slot succeeds and
hands the slot out with its contents exactly as they were — `Marked`
necessarily clear, but flags, `args` and `sort_index` not reset by the
allocator (both in the `allocate_dag_node` scan and in the
`slow_new_dag_node` scan); zero-initialization of flags and `args` is
performed afterwards by `DagNodeCore::with_theory`, which never writes
`sort_index`. -/
theorem c3_allocate_returns_slot_as_is (l l' : List Slot) (i : Nat) :
    (alloc_scan l = some (l', i) →
      ∃ s, l.get? i = some s ∧ l'.get? i = some s ∧ s.is_marked = false ∧
        l'.length = l.length) ∧
    (slow_scan l = some (l', i) →
      ∃ s, l.get? i = some s ∧ l'.get? i = some s ∧ s.is_marked = false ∧
        l'.length = l.length) :=
  ⟨alloc_scan_found l l' i, slow_scan_found l l' i⟩

/-- Witness for the amended C3 theorem on a one-slot window. -/
theorem c3_allocate_returns_slot_as_is_witness :
    ∃ s, [Slot.mk 0 0 0].get? 0 = some s ∧ [Slot.mk 0 0 0].get? 0 = some s ∧
      s.is_marked = false ∧ [Slot.mk 0 0 0].length = [Slot.mk 0 0 0].length :=
  (c3_allocate_returns_slot_as_is [Slot.mk 0 0 0] [Slot.mk 0 0 0] 0).1 (by decide)

/-- Claim C4 counterexample: the code's lazy-sweep scans disagree with
the spec's three cases.  On `[flags=5 (Marked|Reduced), flags=0]` the
`allocate_dag_node` scan clears all of the marked slot's flags instead
of only the `Marked` bit; on `[flags=2 (NeedsDestruction)]` both scans
return the slot with `NeedsDestruction` still set instead of clearing
its flags after the destructor. -/
theorem c4_counterexample :
    alloc_scan
        [{ flags := 5, args := 0, sort_index := 0 },
         { flags := 0, args := 0, sort_index := 0 }] ≠
      c4_spec_scan
        [{ flags := 5, args := 0, sort_index := 0 },
         { flags := 0, args := 0, sort_index := 0 }] ∧
    alloc_scan [{ flags := 2, args := 0, sort_index := 0 }] ≠
      c4_spec_scan [{ flags := 2, args := 0, sort_index := 0 }] ∧
    slow_scan [{ flags := 2, args := 0, sort_index := 0 }] ≠
      c4_spec_scan [{ flags := 2, args := 0, sort_index := 0 }] := by
  refine ⟨by decide, by decide, by decide⟩

/-- Claim C4 (amended): the scans' actual cases.  A slot with
`Marked==0 && NeedsDestruction==0` is returned with no cleanup; a slot
with `Marked==0 && NeedsDestruction==1` has its (no-op) destructor
invoked and is returned with its flags unchanged — not cleared; a slot
with `Marked==1` is advanced past, `allocate_dag_node` overwriting its
whole flag byte with 0 while `slow_new_dag_node` clears only the
`Marked` bit. -/
theorem c4_scan_cases (s : Slot) (l : List Slot) :
    (s.simple_reuse = true →
      alloc_scan (s :: l) = some (s :: l, 0) ∧
      slow_scan (s :: l) = some (s :: l, 0)) ∧
    (s.is_marked = false → s.needs_destruction = true →
      alloc_scan (s :: l) = some (s :: l, 0) ∧
      slow_scan (s :: l) = some (s :: l, 0)) ∧
    (s.is_marked = true →
      alloc_scan (s :: l) =
        (alloc_scan l).map (fun r => ({ s with flags := 0 } :: r.1, r.2 + 1)) ∧
      slow_scan (s :: l) =
        (slow_scan l).map
          (fun r => ({ s with flags := s.flags &&& 254 } :: r.1, r.2 + 1))) := by
  refine ⟨?_, ?_, ?_⟩
  · intro hsr
    constructor
    · simp [alloc_scan, hsr]
    · simp [slow_scan, hsr]
  · intro hm hnd
    have hsr : s.simple_reuse = false := by
      simp [Slot.simple_reuse, hm, hnd]
    constructor
    · simp [alloc_scan, hsr, hm]
    · simp [slow_scan, hsr, hm]
  · intro hm
    have hsr : s.simple_reuse = false := by
      simp [Slot.simple_reuse, hm]
    constructor
    · cases ha : alloc_scan l with
      | none => simp [alloc_scan, hsr, hm, ha]
      | some p => simp [alloc_scan, hsr, hm, ha]
    · cases ha : slow_scan l with
      | none => simp [slow_scan, hsr, hm, ha]
      | some p => simp [slow_scan, hsr, hm, ha]

/-- Witness for the amended C4 theorem: the three cases at concrete
slots. -/
theorem c4_scan_cases_witness :
    (alloc_scan [Slot.mk 0 0 0] = some ([Slot.mk 0 0 0], 0) ∧
      slow_scan [Slot.mk 0 0 0] = some ([Slot.mk 0 0 0], 0)) ∧
    (alloc_scan [Slot.mk 2 0 0] = some ([Slot.mk 2 0 0], 0) ∧
      slow_scan [Slot.mk 2 0 0] = some ([Slot.mk 2 0 0], 0)) ∧
    (alloc_scan [Slot.mk 1 0 0] =
        (alloc_scan []).map (fun r => ({ Slot.mk 1 0 0 with flags := 0 } :: r.1, r.2 + 1)) ∧
      slow_scan [Slot.mk 1 0 0] =
        (slow_scan []).map
          (fun r => ({ Slot.mk 1 0 0 with flags := (Slot.mk 1 0 0).flags &&& 254 } :: r.1,
            r.2 + 1))) := by
  refine ⟨?_, ?_, ?_⟩
  · exact (c4_scan_cases (Slot.mk 0 0 0) []).1 (by decide)
  · exact (c4_scan_cases (Slot.mk 2 0 0) []).2.1 (by decide) (by decide)
  · exact (c4_scan_cases (Slot.mk 1 0 0) []).2.2 (by decide)

/-- Claim C8: after `collect_garbage`'s arena sizing,
`arena_count × ARENA_SIZE ≥ ceil(active_node_count × slop)`, where the
slop factor is 8.0 below `LOWER_BOUND`, 2.0 at or above `UPPER_BOUND`,
and linearly interpolated in between (the code's `f64` arithmetic is
idealized over `ℚ`). -/
theorem c8_capacity_adequacy (arena_count active : Nat) :
    Int.ceil ((active : ℚ) * slop_factor active) ≤
      (arena_count_after_gc arena_count active : ℤ) * (ARENA_SIZE : ℤ) := by
  have hAS : (0 : ℚ) < (ARENA_SIZE : ℚ) := by norm_num [ARENA_SIZE]
  have hslop : 0 ≤ slop_factor active := by
    unfold slop_factor
    split
    · norm_num [SMALL_MODEL_SLOP]
    · split
      · have hnum : (0 : ℚ) ≤
            ((UPPER_BOUND - active : Nat) : ℚ) * (SMALL_MODEL_SLOP - BIG_MODEL_SLOP) := by
          apply mul_nonneg
          · exact_mod_cast Nat.zero_le _
          · norm_num [SMALL_MODEL_SLOP, BIG_MODEL_SLOP]
        have hden : (0 : ℚ) ≤ ((UPPER_BOUND - LOWER_BOUND : Nat) : ℚ) := by
          exact_mod_cast Nat.zero_le _
        have hdiv := div_nonneg hnum hden
        have : (0 : ℚ) ≤ BIG_MODEL_SLOP := by norm_num [BIG_MODEL_SLOP]
        linarith
      · norm_num [BIG_MODEL_SLOP]
  have hq : (0 : ℚ) ≤ (active : ℚ) * slop_factor active :=
    mul_nonneg (by exact_mod_cast Nat.zero_le _) hslop
  have hceil0 : (0 : ℤ) ≤ Int.ceil ((active : ℚ) * slop_factor active / (ARENA_SIZE : ℚ)) :=
    Int.ceil_nonneg (div_nonneg hq (le_of_lt hAS))
  have hideal : ((ideal_arena_count active : Nat) : ℤ) =
      Int.ceil ((active : ℚ) * slop_factor active / (ARENA_SIZE : ℚ)) := by
    unfold ideal_arena_count
    exact Int.toNat_of_nonneg hceil0
  have hNge : ideal_arena_count active ≤ arena_count_after_gc arena_count active :=
    le_max_right _ _
  have h1 : Int.ceil ((active : ℚ) * slop_factor active / (ARENA_SIZE : ℚ)) ≤
      ((arena_count_after_gc arena_count active : Nat) : ℤ) := by
    rw [← hideal]
    exact_mod_cast hNge
  have hx : (active : ℚ) * slop_factor active / (ARENA_SIZE : ℚ) ≤
      ((arena_count_after_gc arena_count active : Nat) : ℚ) := by
    refine le_trans (Int.le_ceil _) ?_
    exact_mod_cast h1
  have hmul : (active : ℚ) * slop_factor active ≤
      ((arena_count_after_gc arena_count active : Nat) : ℚ) * (ARENA_SIZE : ℚ) := by
    have := (div_le_iff hAS).mp hx
    linarith
  refine Int.ceil_le.mpr ?_
  push_cast
  exact hmul

/-- Claim C9: for a `GCVector` whose length is strictly below its
capacity, `push` writes the element at index `length` and increments
`length`; for a `GCVector` whose length equals its capacity, `push` is
a fatal error (`none`) and the vector is never grown. -/
theorem c9_push_behavior {T : Type} (v : GCVector T) (x : T)
    (hdata : v.data.length = v.capacity) :
    (v.length < v.capacity →
      v.push x = some { length := v.length + 1, capacity := v.capacity,
                        data := v.data.set v.length x } ∧
      (v.data.set v.length x).get? v.length = some x) ∧
    (v.length = v.capacity → v.push x = none) := by
  constructor
  · intro hlt
    have hne : v.length ≠ v.capacity := Nat.ne_of_lt hlt
    have hlt' : v.length < v.data.length := by rw [hdata]; exact hlt
    constructor
    · simp [GCVector.push, hne, hlt']
    · exact List.get?_set_eq_of_lt _ hlt'
  · intro heq
    simp [GCVector.push, heq]

/-- Witness for the C9 theorem: pushing onto a one-slot vector with
room, and onto a full one. -/
theorem c9_push_behavior_witness :
    ((GCVector.mk 0 1 [(7 : Nat)]).push 9 =
        some { length := 1, capacity := 1, data := [(7 : Nat)].set 0 9 } ∧
      ([(7 : Nat)].set 0 9).get? 0 = some 9) ∧
    (GCVector.mk 1 1 [(9 : Nat)]).push 5 = none := by
  constructor
  · exact (c9_push_behavior (GCVector.mk 0 1 [7]) 9 (by decide)).1 (by decide)
  · exact (c9_push_behavior (GCVector.mk 1 1 [9]) 5 (by decide)).2 (by decide)

/-- Claim C10: for a non-null symbol with known arity `a ≥ 2`,
`DagNodeCore::with_theory` (hence `FreeDagNode::new`) immediately
allocates an empty argument `GCVector` of capacity `a`, stores it in
`args` and sets `NeedsDestruction`; `insert_child` on such a node
therefore goes straight to the vector-push branch.  The
empty→single promotion in `insert_child` is exercised only for nodes
whose symbol arity is at most 1 or not a known value, for which
creation leaves `args` null. -/
theorem c10_with_theory_arity_vector (a : Nat) (ha : 2 ≤ a) :
    with_theory (Arity.Value a) =
      { args := NodeArgs.vector
          { length := 0, capacity := a, data := List.replicate a 0 }
        needs_destruction := true } ∧
    (∀ c, insert_child (with_theory (Arity.Value a)) (Arity.Value a) c =
      some { args := NodeArgs.vector
               { length := 1, capacity := a, data := (List.replicate a 0).set 0 c }
             needs_destruction := true }) ∧
    (∀ ar : Arity, (∀ k, ar = Arity.Value k → k ≤ 1) →
      (with_theory ar).args = NodeArgs.null ∧
      (with_theory ar).needs_destruction = false ∧
      ∀ c, insert_child (with_theory ar) ar c =
        some { args := NodeArgs.single c, needs_destruction := false }) := by
  have h1a : 1 < a := by omega
  have h0a : (0 : Nat) ≠ a := by omega
  refine ⟨?_, ?_, ?_⟩
  · simp [with_theory, GCVector.with_capacity, h1a]
  · intro c
    simp only [with_theory, GCVector.with_capacity, h1a, if_true]
    simp only [insert_child, GCVector.push]
    have hrep : (List.replicate a (0 : Nat)).length = a := List.length_replicate a 0
    simp [h0a, hrep, show (0 : Nat) < a by omega]
  · intro ar har
    cases ar with
    | Value k =>
      have hk : k ≤ 1 := har k rfl
      have hnk : ¬ (1 < k) := by omega
      refine ⟨by simp [with_theory, hnk], by simp [with_theory, hnk], ?_⟩
      intro c
      simp [with_theory, insert_child, hnk]
    | Any => exact ⟨rfl, rfl, fun c => rfl⟩
    | None => exact ⟨rfl, rfl, fun c => rfl⟩
    | Unspecified => exact ⟨rfl, rfl, fun c => rfl⟩
    | Variadic => exact ⟨rfl, rfl, fun c => rfl⟩

/-- Witness for the C10 theorem at arity 3 (and arity 1 for the
promotion side). -/
theorem c10_with_theory_arity_vector_witness :
    with_theory (Arity.Value 3) =
      { args := NodeArgs.vector
          { length := 0, capacity := 3, data := List.replicate 3 0 }
        needs_destruction := true } ∧
    insert_child (with_theory (Arity.Value 3)) (Arity.Value 3) 5 =
      some { args := NodeArgs.vector
               { length := 1, capacity := 3, data := (List.replicate 3 0).set 0 5 }
             needs_destruction := true } ∧
    (with_theory (Arity.Value 1)).args = NodeArgs.null ∧
    insert_child (with_theory (Arity.Value 1)) (Arity.Value 1) 4 =
      some { args := NodeArgs.single 4, needs_destruction := false } := by
  have h := c10_with_theory_arity_vector 3 (by norm_num)
  have h1 := h.2.2 (Arity.Value 1) (by intro k hk; cases hk; norm_num)
  exact ⟨h.1, h.2.1 5, h1.1, h1.2.2 4⟩

/-- Claim C5: `DagNode::mark` on an already-marked node returns
immediately with the heap — nodes, vector storage and
`ACTIVE_NODE_COUNT` — unchanged.  On any node, a completed `mark`
leaves the node marked and increments `ACTIVE_NODE_COUNT` by exactly
the number of newly marked nodes (one per node that goes from unmarked
to marked, in particular one for this node).  When an unmarked node's
`args` holds a `GCVector`, `mark` marks every element and replaces
`args` with a newly allocated vector — at a fresh index, past every
existing one — holding the same element list. -/
theorem c5_mark_behavior (fuel : Nat) (h h' : Heap) (n : Nat) (node : MNode)
    (hwf : wfHeap h = true) (hg : h.nodes.get? n = some node) :
    (node.marked = true → markStep (fuel + 1) h (Sum.inl n) = some h) ∧
    (markStep (fuel + 1) h (Sum.inl n) = some h' →
      (∃ b, h'.nodes.get? n = some b ∧ b.marked = true) ∧
      (h'.activeCount + cMarked h.nodes = h.activeCount + cMarked h'.nodes) ∧
      (∀ v elems, node.marked = false → node.args = Args.vecRef v →
        h.vecs.get? v = some elems →
        ∃ w b, h'.nodes.get? n = some b ∧ b.args = Args.vecRef w ∧
          h.vecs.length ≤ w ∧ h'.vecs.get? w = some elems ∧
          (∀ c ∈ elems, ∃ bc, h'.nodes.get? c = some bc ∧ bc.marked = true))) := by
  constructor
  · intro hm
    simp only [markStep]
    rw [hg]
    simp [hm]
  · intro hstep
    refine ⟨markStep_marks_inl (fuel + 1) h n h' hwf hstep,
      (markStep_inv (fuel + 1) h (Sum.inl n) h' hwf hstep).2.2.2.2.1, ?_⟩
    intro v elems hmf hargs hv
    obtain ⟨nsym, nmk, nnd, nargs⟩ := node
    simp only at hmf hargs
    subst hmf
    subst hargs
    have hlt : n < h.nodes.length := get?_lt_length hg
    simp only [markStep, hg, hv, Bool.false_eq_true, if_false] at hstep
    have i1 := markInv_set_marked hwf hg rfl
    have wf1 := i1.2.2.2.2.2
    have hg1 :
        ({ h with
            activeCount := h.activeCount + 1
            nodes := h.nodes.set n
              { symbol := nsym, marked := true, needsDestruction := nnd,
                args := Args.vecRef v } } : Heap).nodes.get? n
          = some { symbol := nsym, marked := true, needsDestruction := nnd,
                   args := Args.vecRef v } :=
      List.get?_set_eq_of_lt _ hlt
    split at hstep
    · exact Option.noConfusion hstep
    · next h2 hrec =>
      have i2 := markStep_inv fuel _ (Sum.inr elems) h2 wf1 hrec
      split at hstep
      · exact Option.noConfusion hstep
      · next node2 hg2 =>
        cases hstep
        have hlt2 : n < h2.nodes.length := get?_lt_length hg2
        obtain ⟨b2, hb2, _, _, hmono, _, _⟩ := i2.2.2.2.1 n _ hg1
        have hb2eq : node2 = b2 := by
          rw [hg2] at hb2
          exact Option.some.inj hb2
        refine ⟨h2.vecs.length, { node2 with args := Args.vecRef h2.vecs.length },
          List.get?_set_eq_of_lt _ hlt2, rfl, ?_, get?_append_last _ _, ?_⟩
        · exact i2.2.1
        · intro c hc
          obtain ⟨bc, hbc, hbcm⟩ :=
            markStep_marks_list fuel _ elems h2 wf1 hrec c hc
          by_cases hcn : c = n
          · subst hcn
            refine ⟨{ node2 with args := Args.vecRef h2.vecs.length },
              List.get?_set_eq_of_lt _ hlt2, ?_⟩
            show node2.marked = true
            rw [hb2eq]
            exact hmono rfl
          · refine ⟨bc, ?_, hbcm⟩
            rw [List.get?_set_ne _ _ (fun he => hcn he.symm)]
            exact hbc

/-- Witness for the C5 theorem on `sampleHeap`: marking node 0 marks
both nodes, raises the count to 2, and repoints node 0 at the fresh
vector copy. -/
theorem c5_mark_behavior_witness :
    (∃ b, sampleHeapMarked.nodes.get? 0 = some b ∧ b.marked = true) ∧
    (sampleHeapMarked.activeCount + cMarked sampleHeap.nodes =
      sampleHeap.activeCount + cMarked sampleHeapMarked.nodes) ∧
    (∃ w b, sampleHeapMarked.nodes.get? 0 = some b ∧ b.args = Args.vecRef w ∧
      sampleHeap.vecs.length ≤ w ∧ sampleHeapMarked.vecs.get? w = some [1] ∧
      (∀ c ∈ [1], ∃ bc, sampleHeapMarked.nodes.get? c = some bc ∧ bc.marked = true)) := by
  have hrun : markStep 3 sampleHeap (Sum.inl 0) = some sampleHeapMarked := by decide
  have h := (c5_mark_behavior 2 sampleHeap sampleHeapMarked 0
      { symbol := 10, marked := false, needsDestruction := true, args := Args.vecRef 0 }
      (by decide) (by decide)).2 hrun
  exact ⟨h.1, h.2.1, h.2.2 0 [1] (by decide) (by decide) (by decide)⟩

/-- Claim C6: for every node transitively reachable from the root set
when the GC driver runs (`sweep_arenas` tidy, then `mark_roots`), the
node is afterwards still present at the same index with the same
symbol, the same argument shape, and the same child references — which
therefore point to equally reachable nodes: the reachable set itself is
preserved. -/
theorem c6_reachability_preserved (fuel : Nat) (h h' : Heap) (roots : List Nat)
    (hwf : wfHeap h = true)
    (hcollect : collect_garbage_model h roots fuel = some h')
    (n : Nat) (hreach : Reaches h roots n) :
    (∀ a, h.nodes.get? n = some a →
      ∃ b, h'.nodes.get? n = some b ∧ b.symbol = a.symbol ∧ sameShape a.args b.args) ∧
    children h' n = children h n ∧
    Reaches h' roots n := by
  have hstep : markStep fuel (tidyHeap h) (Sum.inr roots) = some h' := hcollect
  have wfT := tidyHeap_wf hwf
  have inv := markStep_inv fuel (tidyHeap h) (Sum.inr roots) h' wfT hstep
  have hcheq : ∀ m, children h m = children h' m := by
    intro m
    rw [← tidyHeap_children h m]
    exact markInv_children_eq inv m
  refine ⟨?_, (hcheq n).symm, ?_⟩
  · intro a hga
    have hgt : (tidyHeap h).nodes.get? n = some (tidySlot a) := by
      show (h.nodes.map tidySlot).get? n = some (tidySlot a)
      rw [List.get?_map, hga]
      rfl
    obtain ⟨b, hb, hsym, _, _, hshape, _⟩ := inv.2.2.2.1 n (tidySlot a) hgt
    refine ⟨b, hb, ?_, ?_⟩
    · rw [hsym, tidySlot_symbol]
    · rw [tidySlot_args] at hshape
      exact hshape
  · exact reaches_of_children_eq hcheq n hreach

/-- Witness for the C6 theorem on `sampleHeap` with node 0 rooted:
node 1, reachable through node 0's argument vector, survives the GC
cycle with symbol and children intact and stays reachable. -/
theorem c6_reachability_preserved_witness :
    (∀ a, sampleHeap.nodes.get? 1 = some a →
      ∃ b, (Heap.mk
          [{ symbol := 10, marked := true, needsDestruction := false, args := Args.vecRef 1 },
           { symbol := 11, marked := true, needsDestruction := false, args := Args.empty }]
          [[1], [1]] 2).nodes.get? 1 = some b ∧
        b.symbol = a.symbol ∧ sameShape a.args b.args) ∧
    children (Heap.mk
        [{ symbol := 10, marked := true, needsDestruction := false, args := Args.vecRef 1 },
         { symbol := 11, marked := true, needsDestruction := false, args := Args.empty }]
        [[1], [1]] 2) 1 = children sampleHeap 1 ∧
    Reaches (Heap.mk
        [{ symbol := 10, marked := true, needsDestruction := false, args := Args.vecRef 1 },
         { symbol := 11, marked := true, needsDestruction := false, args := Args.empty }]
        [[1], [1]] 2) [0] 1 := by
  have hr : Reaches sampleHeap [0] 1 := by
    refine Reaches.step (Reaches.root (List.mem_singleton.mpr rfl)) ?_
    show (1 : Nat) ∈ children sampleHeap 0
    decide
  exact c6_reachability_preserved 4 sampleHeap
    (Heap.mk
      [{ symbol := 10, marked := true, needsDestruction := false, args := Args.vecRef 1 },
       { symbol := 11, marked := true, needsDestruction := false, args := Args.empty }]
      [[1], [1]] 2) [0] (by decide) (by decide) 1 hr

/-- Claim C7 counterexample: a public call sequence — allocate a node,
root it, trip the want-GC flag, reach the safe point — ends with the GC
cycle complete (we are outside any GC cycle), yet the rooted, live slot
has its `Marked` flag set: `collect_garbage` does not clear the mark
bits it sets, they are only cleared lazily by later allocation scans. -/
theorem c7_counterexample :
    Reaches rootOnlyHeap [0] 0 ∧
    collect_garbage_model rootOnlyHeap [0] 2 = some rootOnlyHeapAfter ∧
    (rootOnlyHeapAfter.nodes.get? 0).map MNode.marked = some true := by
  refine ⟨Reaches.root (List.mem_singleton.mpr rfl), by decide, by decide⟩

/-- Claim C7 (amended): right after a completed GC cycle the live slots
are exactly the ones still carrying the `Marked` flag: every rooted
node is left marked by `collect_garbage`; the bits are cleared lazily
as later `allocate_dag_node` scans pass over the slots, so "no live
slot has `Marked` set" holds only for the region already behind the
scan cursor, not after every call sequence. -/
theorem c7_roots_stay_marked_after_gc (fuel : Nat) (h h' : Heap) (roots : List Nat)
    (hwf : wfHeap h = true)
    (hcollect : collect_garbage_model h roots fuel = some h') :
    ∀ n ∈ roots, ∃ b, h'.nodes.get? n = some b ∧ b.marked = true :=
  markStep_marks_list fuel (tidyHeap h) roots h' (tidyHeap_wf hwf) hcollect

/-- Witness for the amended C7 theorem on `rootOnlyHeap`. -/
theorem c7_roots_stay_marked_after_gc_witness :
    ∃ b, rootOnlyHeapAfter.nodes.get? 0 = some b ∧ b.marked = true :=
  c7_roots_stay_marked_after_gc 2 rootOnlyHeap rootOnlyHeapAfter [0]
    (by decide) (by decide) 0 (List.mem_singleton.mpr rfl)
